import Mathlib

/-
Shallow embedding of the go-square share builder
(src/shares/share_builder.go, package shares).

Bytes are modelled as Nat (each byte a value < 256 in practice), byte
slices as List Nat, Go int results that may go negative as Int, and Go
errors as Option String (none = nil error).  Helpers of this repository
that are called from share_builder.go but are not under src/ (the layout
constants, NewInfoByte, NewReservedBytes, ParseReservedBytes,
zeroPadIfNecessary, and the Namespace interface) are modelled from the
spec; each such definition carries a doc comment saying so.
-/

/-- Modelled from the spec: `ShareSize` is the fixed size of a share in
bytes.  The spec leaves the value implementation-defined; the value used
by the implementation is 512. -/
def ShareSize : Nat := 512

/-- Modelled from the spec: `NamespaceSize` is the fixed size of a
namespace identifier in bytes (29 in the implementation). -/
def NamespaceSize : Nat := 29

/-- Modelled from the spec: width of the info byte field (one byte). -/
def ShareInfoBytes : Nat := 1

/-- Modelled from the spec: width of the sequence length field
(a fixed-width big-endian unsigned integer, 4 bytes). -/
def SequenceLenBytes : Nat := 4

/-- Modelled from the spec: width of the reserved bytes field of a
compact share (a fixed-width big-endian unsigned integer, 4 bytes). -/
def CompactShareReservedBytes : Nat := 4

/-- Modelled from the spec: the largest encodable share version.  The
info byte keeps the version in its high bits and the first-share flag in
its low bit, so versions occupy 7 bits: 0..127. -/
def MaxShareVersion : Nat := 127

/-- Modelled from the spec: the external Namespace collaborator, reduced
to the interface the builder consumes: `Bytes()`, `IsTx()`,
`IsPayForBlob()`. -/
structure Namespace where
  bytes : List Nat
  isTx : Bool
  isPayForBlob : Bool

deriving instance DecidableEq for Namespace

/-- The zero value of the Namespace collaborator, as produced by Go for
an uninitialized field. -/
def zeroNamespace : Namespace :=
  { bytes := [], isTx := false, isPayForBlob := false }

/-- The Builder struct of share_builder.go. -/
structure Builder where
  «namespace» : Namespace
  shareVersion : Nat
  isFirstShare : Bool
  isCompactShare : Bool
  rawShareData : List Nat

deriving instance DecidableEq for Builder

/-- `isCompactShare(ns)` of share_builder.go: a namespace yields compact
shares iff it is a transaction or pay-for-blob namespace. -/
def isCompactShare (ns : Namespace) : Bool :=
  ns.isTx || ns.isPayForBlob

/-- `NewEmptyBuilder()` of share_builder.go: only `rawShareData` is set
explicitly; the remaining fields take their Go zero values. -/
def NewEmptyBuilder : Builder :=
  { «namespace» := zeroNamespace
    shareVersion := 0
    isFirstShare := false
    isCompactShare := false
    rawShareData := [] }

/-- Big-endian 4-byte encoding, as written by
`binary.BigEndian.PutUint32` on a value already reduced to uint32. -/
def putUint32BE (n : Nat) : List Nat :=
  [n / 16777216 % 256, n / 65536 % 256, n / 256 % 256, n % 256]

/-- Big-endian integer read of a byte list, as done by
`binary.BigEndian.Uint32` on a 4-byte slice. -/
def beUint32 (l : List Nat) : Nat :=
  l.foldl (fun acc x => acc * 256 + x) 0

/-- Modelled from the spec: `NewInfoByte(version, isFirstShare)` is not
under src/.  The info byte keeps the share version in its high bits and
the first-share flag in bit 0; construction fails when the version
exceeds the encodable range (`InvalidVersion`). -/
def NewInfoByte (version : Nat) (isFirstShare : Bool) : Option Nat :=
  if MaxShareVersion < version then
    none
  else
    some (2 * version + (if isFirstShare then 1 else 0))

/-- Modelled from the spec: `NewReservedBytes(byteIndex)` is not under
src/.  It encodes the byte offset as a fixed-width big-endian unsigned
integer of `CompactShareReservedBytes` bytes; the Go uint32 conversion
of the offset reduces it modulo 2^32. -/
def NewReservedBytes (byteIndex : Nat) : List Nat :=
  putUint32BE (byteIndex % 4294967296)

/-- Modelled from the spec: `ParseReservedBytes(bytes)` is not under
src/.  It decodes the fixed-width big-endian reserved bytes field,
failing when the region cannot be parsed (wrong width). -/
def ParseReservedBytes (reservedBytes : List Nat) : Option Nat :=
  if reservedBytes.length = CompactShareReservedBytes then
    some (beUint32 reservedBytes)
  else
    none

/-- Modelled from the spec: the free helper `zeroPadIfNecessary(share,
width)` is not under src/.  It appends zero bytes until the share
reaches exactly `width` bytes and returns the number of bytes of padding
added (0 if the share is already at least `width` bytes long). -/
def zeroPadIfNecessary (share : List Nat) (width : Nat) : List Nat × Nat :=
  if width ≤ share.length then
    (share, 0)
  else
    (share ++ List.replicate (width - share.length) 0, width - share.length)

/-- `prepareCompactShare` of share_builder.go: namespace bytes, info
byte, a zero-filled sequence length placeholder when this is the first
share, then a zero-filled reserved bytes placeholder. -/
def prepareCompactShare (b : Builder) : Option Builder :=
  match NewInfoByte b.shareVersion b.isFirstShare with
  | none => none
  | some infoByte =>
      some { b with rawShareData :=
        b.«namespace».bytes ++ [infoByte]
          ++ (if b.isFirstShare then List.replicate SequenceLenBytes 0 else [])
          ++ List.replicate CompactShareReservedBytes 0 }

/-- `prepareSparseShare` of share_builder.go: namespace bytes, info
byte, and a zero-filled sequence length placeholder when this is the
first share. -/
def prepareSparseShare (b : Builder) : Option Builder :=
  match NewInfoByte b.shareVersion b.isFirstShare with
  | none => none
  | some infoByte =>
      some { b with rawShareData :=
        b.«namespace».bytes ++ [infoByte]
          ++ (if b.isFirstShare then List.replicate SequenceLenBytes 0 else []) }

/-- `init` of share_builder.go: populate `rawShareData` according to the
share kind. -/
def Builder.init (b : Builder) : Option Builder :=
  if b.isCompactShare then prepareCompactShare b else prepareSparseShare b

/-- `NewBuilder(ns, shareVersion, isFirstShare)` of share_builder.go.
Returns none exactly when header initialization fails
(`InvalidVersion`). -/
def NewBuilder (ns : Namespace) (shareVersion : Nat) (isFirstShare : Bool) :
    Option Builder :=
  Builder.init
    { «namespace» := ns
      shareVersion := shareVersion
      isFirstShare := isFirstShare
      isCompactShare := isCompactShare ns
      rawShareData := [] }

/-- `AvailableBytes()` of share_builder.go: `ShareSize - len(rawShareData)`
as a Go int, which may be negative. -/
def AvailableBytes (b : Builder) : Int :=
  (ShareSize : Int) - b.rawShareData.length

/-- `ImportRawShare(rawBytes)` of share_builder.go: assigns `rawBytes`
to `rawShareData` and returns the builder. -/
def ImportRawShare (b : Builder) (rawBytes : List Nat) : Builder :=
  { b with rawShareData := rawBytes }

/-- `AddData(rawData)` of share_builder.go.  `none` models the Go
runtime fault of slicing with a negative index, reached when the buffer
is already longer than `ShareSize`; otherwise the result is the updated
builder together with the leftover bytes (the Go nil leftover is the
empty list). -/
def AddData (b : Builder) (rawData : List Nat) : Option (Builder × List Nat) :=
  let pendingLeft : Int := (ShareSize : Int) - b.rawShareData.length
  if (rawData.length : Int) ≤ pendingLeft then
    some ({ b with rawShareData := b.rawShareData ++ rawData }, [])
  else if pendingLeft < 0 then
    none
  else
    some ({ b with rawShareData := b.rawShareData ++ rawData.take pendingLeft.toNat },
      rawData.drop pendingLeft.toNat)

/-- `ZeroPadIfNecessary()` of share_builder.go: pad the buffer to
`ShareSize` and return the number of padding bytes. -/
def ZeroPadIfNecessary (b : Builder) : Builder × Nat :=
  let p := zeroPadIfNecessary b.rawShareData ShareSize
  ({ b with rawShareData := p.1 }, p.2)

/-- `indexOfReservedBytes()` of share_builder.go. -/
def indexOfReservedBytes (b : Builder) : Nat :=
  if b.isFirstShare then
    NamespaceSize + ShareInfoBytes + SequenceLenBytes
  else
    NamespaceSize + ShareInfoBytes

/-- `indexOfInfoBytes()` of share_builder.go: the info byte immediately
follows the namespace. -/
def indexOfInfoBytes (_b : Builder) : Nat :=
  NamespaceSize

/-- The Go slice expression `l[i : i+n]`, taken at the list level.
The spare capacity of the underlying Go array is not modelled: a slice
reaching past the length yields a short list here (and hence a decode
error downstream) where Go would fault or read stale array contents;
no theorem below depends on that out-of-range case. -/
def goSlice (l : List Nat) (i n : Nat) : List Nat :=
  (l.drop i).take n

/-- The Go element-assignment loop writing `bytes` into `l` starting at
index `i` (out-of-range assignments, a Go runtime fault, are dropped;
no theorem below depends on that case). -/
def writeBytesAt (l : List Nat) (i : Nat) (bytes : List Nat) : List Nat :=
  match bytes with
  | [] => l
  | x :: xs => writeBytesAt (l.set i x) (i + 1) xs

/-- `isEmptyReservedBytes()` of share_builder.go: parse the reserved
bytes region and report whether it holds zero; `none` models the error
return. -/
def isEmptyReservedBytes (b : Builder) : Option Bool :=
  match ParseReservedBytes
      (goSlice b.rawShareData (indexOfReservedBytes b) CompactShareReservedBytes) with
  | none => none
  | some reservedBytes => some (reservedBytes == 0)

/-- `MaybeWriteReservedBytes()` of share_builder.go: errors on sparse
shares, is a no-op when the reserved bytes are already populated, and
otherwise writes the current buffer length into the reserved bytes
region. -/
def MaybeWriteReservedBytes (b : Builder) : Builder × Option String :=
  if !b.isCompactShare then
    (b, some "this is not a compact share")
  else
    match isEmptyReservedBytes b with
    | none => (b, some "malformed reserved bytes")
    | some false => (b, none)
    | some true =>
        let byteIndexOfNextUnit := b.rawShareData.length
        let reservedBytes := NewReservedBytes byteIndexOfNextUnit
        ({ b with rawShareData :=
            writeBytesAt b.rawShareData (indexOfReservedBytes b) reservedBytes },
          none)

/-- `WriteSequenceLen(sequenceLen)` of share_builder.go: errors on a
non-first share, otherwise writes the big-endian sequence length over
the sequence length region.  The Go nil-receiver check has no
counterpart here because every `Builder` value is constructed.  The
sequence length argument is a Go uint32, hence the reduction modulo
2^32. -/
def WriteSequenceLen (b : Builder) (sequenceLen : Nat) : Builder × Option String :=
  if !b.isFirstShare then
    (b, some "not the first share")
  else
    let sequenceLenBuf := putUint32BE (sequenceLen % 4294967296)
    let written := writeBytesAt b.rawShareData (NamespaceSize + ShareInfoBytes) sequenceLenBuf
    ({ b with rawShareData := written }, none)

/-- `FlipSequenceStart()` of share_builder.go: XOR the info byte with
0x01 in place. -/
def FlipSequenceStart (b : Builder) : Builder :=
  let infoByteIndex := indexOfInfoBytes b
  { b with rawShareData :=
      b.rawShareData.set infoByteIndex ((b.rawShareData.getD infoByteIndex 0) ^^^ 1) }

/-- `IsEmptyShare()` of share_builder.go: the buffer holds exactly the
header. -/
def IsEmptyShare (b : Builder) : Bool :=
  b.rawShareData.length
    = NamespaceSize + ShareInfoBytes
      + (if b.isCompactShare then CompactShareReservedBytes else 0)
      + (if b.isFirstShare then SequenceLenBytes else 0)

/-- The operations a caller can invoke on a Builder after construction,
used to state invariants over arbitrary operation sequences. -/
inductive BuilderOp : Type
  | addData (rawData : List Nat)
  | importRawShare (rawBytes : List Nat)
  | maybeWriteReservedBytes
  | writeSequenceLen (sequenceLen : Nat)
  | flipSequenceStart
  | zeroPadIfNecessary

/-- Run one operation on a builder; `none` propagates the runtime fault
of `AddData` on an over-full buffer. -/
def applyOp (b : Builder) : BuilderOp → Option Builder
  | .addData rawData => (AddData b rawData).map (fun p => p.1)
  | .importRawShare rawBytes => some (ImportRawShare b rawBytes)
  | .maybeWriteReservedBytes => some (MaybeWriteReservedBytes b).1
  | .writeSequenceLen sequenceLen => some (WriteSequenceLen b sequenceLen).1
  | .flipSequenceStart => some (FlipSequenceStart b)
  | .zeroPadIfNecessary => some (ZeroPadIfNecessary b).1

/-- Run a sequence of operations left to right. -/
def applyOps (b : Builder) (ops : List BuilderOp) : Option Builder :=
  ops.foldl (fun acc op => acc.bind (fun c => applyOp c op)) (some b)

/-- An operation respects the share capacity when it is anything but
an imported buffer of more than `ShareSize` bytes. -/
def opRespectsCapacity : BuilderOp → Prop
  | .importRawShare rawBytes => rawBytes.length ≤ ShareSize
  | _ => True

/- Helper lemmas about the byte-level primitives. -/

theorem writeBytesAt_length (bytes : List Nat) (l : List Nat) (i : Nat) :
    (writeBytesAt l i bytes).length = l.length := by
  induction bytes generalizing l i with
  | nil => rfl
  | cons x xs ih => simp [writeBytesAt, ih]

theorem writeBytesAt_eq_append (bytes : List Nat) (l : List Nat) (i : Nat)
    (h : i + bytes.length ≤ l.length) :
    writeBytesAt l i bytes = l.take i ++ bytes ++ l.drop (i + bytes.length) := by
  induction bytes generalizing l i with
  | nil => simp [writeBytesAt]
  | cons x xs ih =>
      have hi : i < l.length := by simp at h; omega
      have hlen : (i + 1) + xs.length ≤ (l.set i x).length := by
        simp at h ⊢; omega
      rw [writeBytesAt, ih (l.set i x) (i + 1) hlen,
        List.set_eq_take_cons_drop x hi]
      have htake : (l.take i ++ x :: l.drop (i + 1)).take (i + 1)
          = l.take i ++ [x] := by
        rw [List.take_append_eq_append_take]
        have : (l.take i).length = i := by simp; omega
        simp [this]
      have hdrop : (l.take i ++ x :: l.drop (i + 1)).drop (i + 1 + xs.length)
          = l.drop (i + (xs.length + 1)) := by
        rw [List.drop_append_eq_append_drop]
        have h1 : (l.take i).length = i := by simp; omega
        have h2 : ¬ (i + 1 + xs.length ≤ i) := by omega
        simp only [h1]
        rw [List.drop_eq_nil_of_le (by omega), List.nil_append]
        have h3 : i + 1 + xs.length - i = xs.length + 1 := by omega
        rw [h3, List.drop_succ_cons, List.drop_drop]
        congr 1
        omega
      rw [htake, hdrop]
      simp [List.append_assoc]

theorem goSlice_writeBytesAt (bytes l : List Nat) (i : Nat)
    (h : i + bytes.length ≤ l.length) :
    goSlice (writeBytesAt l i bytes) i bytes.length = bytes := by
  rw [goSlice, writeBytesAt_eq_append bytes l i h]
  have h1 : (l.take i).length = i := by simp; omega
  rw [List.append_assoc, List.drop_left' h1, List.take_left' rfl]

theorem goSlice_length (l : List Nat) (i n : Nat) (h : i + n ≤ l.length) :
    (goSlice l i n).length = n := by
  simp [goSlice]
  omega

theorem beUint32_putUint32BE (n : Nat) (h : n < 4294967296) :
    beUint32 (putUint32BE n) = n := by
  simp [beUint32, putUint32BE]
  omega

theorem putUint32BE_length (n : Nat) : (putUint32BE n).length = 4 := rfl

theorem set_getD_self (l : List Nat) (i : Nat) (h : i < l.length) :
    l.set i (l.getD i 0) = l := by
  rw [List.getD_eq_getElem l 0 h]
  exact List.ext_getElem (by simp) (fun n h1 h2 => by
    rcases eq_or_ne i n with rfl | hne
    · simp
    · simp [List.getElem_set_ne hne])

theorem zeroPadIfNecessary_fst_length (share : List Nat) (width : Nat) :
    (zeroPadIfNecessary share width).1.length = max share.length width := by
  rw [zeroPadIfNecessary]
  split
  · simp; omega
  · simp; omega

theorem addData_some_length_le (b b' : Builder) (rawData leftover : List Nat)
    (h : AddData b rawData = some (b', leftover)) :
    b'.rawShareData.length ≤ ShareSize := by
  rw [AddData] at h
  split at h
  · rename_i hfit
    simp only [Option.some.injEq, Prod.mk.injEq] at h
    rw [← h.1]
    simp only [List.length_append]
    simp [ShareSize] at hfit ⊢
    omega
  · split at h
    · exact absurd h (by simp)
    · rename_i hfit hneg
      simp only [Option.some.injEq, Prod.mk.injEq] at h
      rw [← h.1]
      simp only [List.length_append, List.length_take]
      simp [ShareSize] at hfit hneg ⊢
      omega

theorem applyOp_preserves_capacity (b c : Builder) (op : BuilderOp)
    (hcap : opRespectsCapacity op) (hb : b.rawShareData.length ≤ ShareSize)
    (h : applyOp b op = some c) : c.rawShareData.length ≤ ShareSize := by
  cases op with
  | addData rawData =>
      simp only [applyOp] at h
      cases hadd : AddData b rawData with
      | none => rw [hadd] at h; exact absurd h (by simp)
      | some p =>
          rw [hadd] at h
          simp only [Option.map_some', Option.some.injEq] at h
          rw [← h]
          exact addData_some_length_le b p.1 rawData p.2 (by rw [hadd])
  | importRawShare rawBytes =>
      simp only [applyOp, Option.some.injEq] at h
      rw [← h]
      simpa [ImportRawShare] using hcap
  | maybeWriteReservedBytes =>
      simp only [applyOp, Option.some.injEq] at h
      rw [← h, MaybeWriteReservedBytes]
      split
      · exact hb
      · split <;> simp_all [writeBytesAt_length]
  | writeSequenceLen sequenceLen =>
      simp only [applyOp, Option.some.injEq] at h
      rw [← h, WriteSequenceLen]
      split
      · exact hb
      · simpa [writeBytesAt_length] using hb
  | flipSequenceStart =>
      simp only [applyOp, Option.some.injEq] at h
      rw [← h, FlipSequenceStart]
      simpa using hb
  | zeroPadIfNecessary =>
      simp only [applyOp, Option.some.injEq] at h
      rw [← h, ZeroPadIfNecessary]
      simp only [zeroPadIfNecessary_fst_length]
      omega

theorem applyOps_none (ops : List BuilderOp) :
    ops.foldl (fun acc op => acc.bind (fun c => applyOp c op)) none = none := by
  induction ops with
  | nil => rfl
  | cons op ops ih => exact ih

theorem applyOps_cons (b : Builder) (op : BuilderOp) (ops : List BuilderOp) :
    applyOps b (op :: ops) = (applyOp b op).bind (fun c => applyOps c ops) := by
  cases h : applyOp b op with
  | none => simp [applyOps, List.foldl_cons, h, applyOps_none]
  | some c => simp [applyOps, List.foldl_cons, h]

theorem applyOps_preserves_capacity (ops : List BuilderOp) (b b' : Builder)
    (hb : b.rawShareData.length ≤ ShareSize)
    (hops : ∀ op ∈ ops, opRespectsCapacity op)
    (hrun : applyOps b ops = some b') : b'.rawShareData.length ≤ ShareSize := by
  induction ops generalizing b with
  | nil =>
      simp [applyOps] at hrun
      rw [← hrun]
      exact hb
  | cons op ops ih =>
      rw [applyOps_cons] at hrun
      cases h : applyOp b op with
      | none => rw [h] at hrun; exact absurd hrun (by simp)
      | some c =>
          rw [h] at hrun
          exact ih c
            (applyOp_preserves_capacity b c op (hops op (by simp)) hb h)
            (fun o ho => hops o (by simp [ho])) hrun

/-- Characterization of `NewBuilder`: it fails exactly on an
out-of-range version and otherwise produces the header-initialized
builder. -/
theorem newBuilder_eq (ns : Namespace) (v : Nat) (first : Bool) :
    NewBuilder ns v first
      = if MaxShareVersion < v then none
        else some
          { «namespace» := ns
            shareVersion := v
            isFirstShare := first
            isCompactShare := isCompactShare ns
            rawShareData :=
              ns.bytes ++ [2 * v + (if first then 1 else 0)]
                ++ (if first then List.replicate SequenceLenBytes 0 else [])
                ++ (if isCompactShare ns then List.replicate CompactShareReservedBytes 0
                    else []) } := by
  cases hc : isCompactShare ns with
  | true =>
      simp only [NewBuilder, Builder.init, hc, if_true, prepareCompactShare, NewInfoByte]
      split <;> simp_all
  | false =>
      simp only [NewBuilder, Builder.init, hc, Bool.false_eq_true, if_false,
        prepareSparseShare, NewInfoByte]
      split <;> simp_all

/- Concrete values used by witnesses and counterexamples. -/

/-- A concrete sparse namespace (neither transaction nor pay-for-blob). -/
def nsSparseEx : Namespace :=
  { bytes := List.replicate 29 1, isTx := false, isPayForBlob := false }

/-- A concrete transaction namespace. -/
def nsTxEx : Namespace :=
  { bytes := List.replicate 29 0, isTx := true, isPayForBlob := false }

/-- The header-initialized sparse builder `NewBuilder nsSparseEx 0 false`
produces. -/
def bSparseHeader : Builder :=
  { «namespace» := nsSparseEx
    shareVersion := 0
    isFirstShare := false
    isCompactShare := false
    rawShareData := List.replicate 29 1 ++ [0] }

/-- The header-initialized compact builder `NewBuilder nsTxEx 0 false`
produces. -/
def bTxHeader : Builder :=
  { «namespace» := nsTxEx
    shareVersion := 0
    isFirstShare := false
    isCompactShare := true
    rawShareData := List.replicate 29 0 ++ [0] ++ List.replicate 4 0 }

/-- C1 counterexample: a concrete operation sequence used in the
capacity-respecting invariant witness. -/
def opsC1 : List BuilderOp :=
  [BuilderOp.addData (List.replicate 600 7),
   BuilderOp.importRawShare (List.replicate 30 2),
   BuilderOp.flipSequenceStart,
   BuilderOp.zeroPadIfNecessary]

/-- The builder reached by running `opsC1` from `bSparseHeader`. -/
def bC1fin : Builder :=
  { «namespace» := nsSparseEx
    shareVersion := 0
    isFirstShare := false
    isCompactShare := false
    rawShareData := (List.replicate 30 2).set 29 3 ++ List.replicate 482 0 }

set_option maxRecDepth 8000 in
/-- C1 fails as stated: from a header-initialized builder, the Builder
operation `ImportRawShare` with 513 bytes drives `AvailableBytes` to
-1, so `AvailableBytes` is not never-negative under every operation
sequence. -/
theorem availableBytes_negative_after_oversized_import :
    NewBuilder nsSparseEx 0 false = some bSparseHeader ∧
    applyOps bSparseHeader [BuilderOp.importRawShare (List.replicate 513 0)]
        = some (ImportRawShare bSparseHeader (List.replicate 513 0)) ∧
    AvailableBytes (ImportRawShare bSparseHeader (List.replicate 513 0)) = -1 := by
  refine ⟨by decide, by decide, by decide⟩

/-- C1 (amended): for every builder obtained by header initialization
and any sequence of Builder operations in which every `ImportRawShare`
input has at most `ShareSize` bytes, `AvailableBytes` plus the buffer
length equals `ShareSize` and `AvailableBytes` is non-negative. -/
theorem availableBytes_invariant_capacity_respecting_ops
    (ns : Namespace) (shareVersion : Nat) (isFirstShare : Bool)
    (b0 b : Builder) (ops : List BuilderOp)
    (hns : ns.bytes.length = NamespaceSize)
    (hinit : NewBuilder ns shareVersion isFirstShare = some b0)
    (hops : ∀ op ∈ ops, opRespectsCapacity op)
    (hrun : applyOps b0 ops = some b) :
    AvailableBytes b + (b.rawShareData.length : Int) = (ShareSize : Int)
      ∧ 0 ≤ AvailableBytes b := by
  have hb0 : b0.rawShareData.length ≤ ShareSize := by
    rw [newBuilder_eq] at hinit
    split at hinit
    · exact absurd hinit (by simp)
    · simp only [Option.some.injEq] at hinit
      rw [← hinit]
      simp only [List.length_append, List.length_cons, List.length_nil]
      rw [hns]
      simp [NamespaceSize, SequenceLenBytes, CompactShareReservedBytes, ShareSize]
      split <;> split <;> simp
  have hb := applyOps_preserves_capacity ops b0 b hb0 hops hrun
  rw [ShareSize] at hb
  constructor
  · rw [AvailableBytes]
    omega
  · rw [AvailableBytes]
    simp [ShareSize]
    omega

set_option maxRecDepth 8000 in
/-- Witness for the amended C1 theorem at a concrete namespace and a
concrete operation sequence mixing appends, an import, a bit flip and
padding. -/
theorem availableBytes_invariant_witness :
    nsSparseEx.bytes.length = NamespaceSize ∧
    NewBuilder nsSparseEx 0 false = some bSparseHeader ∧
    (∀ op ∈ opsC1, opRespectsCapacity op) ∧
    applyOps bSparseHeader opsC1 = some bC1fin ∧
    (AvailableBytes bC1fin + (bC1fin.rawShareData.length : Int) = (ShareSize : Int)
      ∧ 0 ≤ AvailableBytes bC1fin) :=
  ⟨by decide, by decide, by simp [opsC1, opRespectsCapacity, ShareSize],
    by decide,
    availableBytes_invariant_capacity_respecting_ops nsSparseEx 0 false bSparseHeader
      bC1fin opsC1 (by decide) (by decide)
      (by simp [opsC1, opRespectsCapacity, ShareSize]) (by decide)⟩

/-- C4: `WriteSequenceLen` on a builder whose `isFirstShare` flag is
false returns the not-first-share error and leaves the builder, buffer
and all other state included, unchanged. -/
theorem writeSequenceLen_not_first_share_error (b : Builder) (sequenceLen : Nat)
    (h : b.isFirstShare = false) :
    WriteSequenceLen b sequenceLen = (b, some "not the first share") := by
  simp [WriteSequenceLen, h]

/-- Witness for the C4 theorem at a concrete non-first-share builder. -/
theorem writeSequenceLen_not_first_share_error_witness :
    bSparseHeader.isFirstShare = false ∧
    WriteSequenceLen bSparseHeader 7 = (bSparseHeader, some "not the first share") :=
  ⟨by decide, writeSequenceLen_not_first_share_error bSparseHeader 7 (by decide)⟩

/-- C5: `MaybeWriteReservedBytes` on a sparse-kind builder returns the
not-compact-share error and leaves the builder unchanged; the
precondition is checked before any mutation. -/
theorem maybeWriteReservedBytes_not_compact_error (b : Builder)
    (h : b.isCompactShare = false) :
    MaybeWriteReservedBytes b = (b, some "this is not a compact share") := by
  simp [MaybeWriteReservedBytes, h]

/-- Witness for the C5 theorem at a concrete sparse builder. -/
theorem maybeWriteReservedBytes_not_compact_error_witness :
    bSparseHeader.isCompactShare = false ∧
    MaybeWriteReservedBytes bSparseHeader
      = (bSparseHeader, some "this is not a compact share") :=
  ⟨by decide, maybeWriteReservedBytes_not_compact_error bSparseHeader (by decide)⟩

/-- C9 fails as stated: a sparse-kind and a compact-kind builder
importing the same raw bytes end with identical buffers, yet the retained
share-kind flag makes `MaybeWriteReservedBytes` behave differently
afterwards, so Builder state other than the buffer survives the import
and influences subsequent behaviour. -/
theorem importRawShare_counterexample :
    (ImportRawShare bSparseHeader (List.replicate 40 5)).rawShareData
        = (ImportRawShare bTxHeader (List.replicate 40 5)).rawShareData ∧
    (MaybeWriteReservedBytes (ImportRawShare bSparseHeader (List.replicate 40 5))).2
        ≠ (MaybeWriteReservedBytes (ImportRawShare bTxHeader (List.replicate 40 5))).2 := by
  refine ⟨by decide, by decide⟩

/-- C9 (amended): `ImportRawShare` replaces the internal buffer verbatim
with the given bytes; the namespace, share version, first-share flag and
share-kind flag are retained from the prior state and continue to govern
subsequent operations. -/
theorem importRawShare_replaces_buffer_keeps_fields (b : Builder) (rawBytes : List Nat) :
    (ImportRawShare b rawBytes).rawShareData = rawBytes ∧
    (ImportRawShare b rawBytes).«namespace» = b.«namespace» ∧
    (ImportRawShare b rawBytes).shareVersion = b.shareVersion ∧
    (ImportRawShare b rawBytes).isFirstShare = b.isFirstShare ∧
    (ImportRawShare b rawBytes).isCompactShare = b.isCompactShare := by
  simp [ImportRawShare]

/-- C2: with the buffer within capacity, `AddData` appends exactly
min(input length, AvailableBytes) bytes — the prefix of the input of
that length — to the internal buffer, never more than AvailableBytes,
and returns the unconsumed suffix, whose length is the truncated
difference of input length and AvailableBytes and which is empty when
the whole input fit. -/
theorem addData_appends_min_and_returns_suffix (b : Builder) (rawData : List Nat)
    (h : b.rawShareData.length ≤ ShareSize) :
    ∃ b' leftover, AddData b rawData = some (b', leftover) ∧
      b'.rawShareData = b.rawShareData ++ rawData.take (AvailableBytes b).toNat ∧
      b'.rawShareData.length
        = b.rawShareData.length + min rawData.length (AvailableBytes b).toNat ∧
      leftover = rawData.drop (AvailableBytes b).toNat ∧
      leftover.length = rawData.length - (AvailableBytes b).toNat ∧
      (rawData.length ≤ (AvailableBytes b).toNat → leftover = []) := by
  have ha : (AvailableBytes b).toNat = ShareSize - b.rawShareData.length := by
    rw [AvailableBytes]
    omega
  simp only [AddData, AvailableBytes]
  split
  · rename_i hfit
    refine ⟨_, _, rfl, ?_, ?_, ?_, ?_, ?_⟩
    · rw [List.take_of_length_le (by rw [AvailableBytes] at ha; omega)]
    · rw [AvailableBytes] at ha
      simp only [List.length_append]
      omega
    · rw [List.drop_eq_nil_of_le (by rw [AvailableBytes] at ha; omega)]
    · rw [AvailableBytes] at ha
      simp
      omega
    · intro
      rfl
  · rename_i hfit
    split
    · rename_i hneg
      exact absurd hneg (by omega)
    · rename_i hneg
      refine ⟨_, _, rfl, rfl, ?_, rfl, ?_, ?_⟩
      · rw [AvailableBytes] at ha
        simp only [List.length_append, List.length_take]
        omega
      · rw [AvailableBytes] at ha
        simp
      · intro hle
        rw [AvailableBytes] at ha
        omega

set_option maxRecDepth 8000 in
/-- Witness for the C2 theorem: a 30-byte buffer receives a 600-byte
input, takes 482 bytes and leaves 118 over. -/
theorem addData_appends_min_witness :
    bSparseHeader.rawShareData.length ≤ ShareSize ∧
    (∃ b' leftover, AddData bSparseHeader (List.replicate 600 7) = some (b', leftover) ∧
      b'.rawShareData
        = bSparseHeader.rawShareData
          ++ (List.replicate 600 7).take (AvailableBytes bSparseHeader).toNat ∧
      b'.rawShareData.length
        = bSparseHeader.rawShareData.length
          + min (List.replicate 600 7).length (AvailableBytes bSparseHeader).toNat ∧
      leftover = (List.replicate 600 7).drop (AvailableBytes bSparseHeader).toNat ∧
      leftover.length
        = (List.replicate 600 7).length - (AvailableBytes bSparseHeader).toNat ∧
      ((List.replicate 600 7).length ≤ (AvailableBytes bSparseHeader).toNat →
        leftover = [])) :=
  ⟨by decide,
    addData_appends_min_and_returns_suffix bSparseHeader (List.replicate 600 7)
      (by decide)⟩

/-- C10: with the buffer within capacity, `AddData` performs no
out-of-range slicing (it returns normally); on an exactly-full buffer it
returns the whole input as leftover and leaves the buffer unchanged;
and on an over-full buffer — reachable through `ImportRawShare` with
oversized bytes — the pending length is negative and the slicing
operation faults. -/
theorem addData_bounds_safety (b : Builder) (rawData : List Nat) :
    (b.rawShareData.length ≤ ShareSize → (AddData b rawData).isSome = true) ∧
    (b.rawShareData.length = ShareSize → AddData b rawData = some (b, rawData)) ∧
    (ShareSize < b.rawShareData.length →
      AvailableBytes b < 0 ∧ AddData b rawData = none) := by
  refine ⟨?_, ?_, ?_⟩
  · intro h
    simp only [AddData]
    split
    · simp
    · split
      · rename_i hneg
        exact absurd hneg (by omega)
      · simp
  · intro h
    cases rawData with
    | nil =>
        simp only [AddData]
        rw [if_pos (by simp [h])]
        simp
    | cons x xs =>
        simp only [AddData]
        rw [if_neg (by simp [h]), if_neg (by simp [h])]
        simp [h]
  · intro h
    refine ⟨?_, ?_⟩
    · rw [AvailableBytes]
      simp only [ShareSize] at h ⊢
      omega
    · simp only [AddData]
      rw [if_neg (by simp only [ShareSize] at h ⊢; omega),
        if_pos (by simp only [ShareSize] at h ⊢; omega)]

set_option maxRecDepth 8000 in
/-- Witness for the C10 theorem: an exactly-full 512-byte builder
returns the whole input as leftover and is unchanged. -/
theorem addData_bounds_safety_witness :
    bC1fin.rawShareData.length = ShareSize ∧
    AddData bC1fin [3, 4] = some (bC1fin, [3, 4]) :=
  ⟨by decide, (addData_bounds_safety bC1fin [3, 4]).2.1 (by decide)⟩

/-- C7: with the buffer at least namespace plus info byte long,
`FlipSequenceStart` toggles exactly the low bit of the info byte (XOR
with 0x01) in place, touching no other byte and no other field, and
applying it twice restores the builder. -/
theorem flipSequenceStart_toggles_low_bit_involution (b : Builder)
    (h : NamespaceSize + ShareInfoBytes ≤ b.rawShareData.length) :
    (FlipSequenceStart b).rawShareData.getD NamespaceSize 0
        = (b.rawShareData.getD NamespaceSize 0) ^^^ 1 ∧
    (∀ j, j ≠ NamespaceSize →
      (FlipSequenceStart b).rawShareData.getD j 0 = b.rawShareData.getD j 0) ∧
    (FlipSequenceStart b).rawShareData.length = b.rawShareData.length ∧
    (FlipSequenceStart b).«namespace» = b.«namespace» ∧
    (FlipSequenceStart b).shareVersion = b.shareVersion ∧
    (FlipSequenceStart b).isFirstShare = b.isFirstShare ∧
    (FlipSequenceStart b).isCompactShare = b.isCompactShare ∧
    FlipSequenceStart (FlipSequenceStart b) = b := by
  have hlt : NamespaceSize < b.rawShareData.length := by
    simp [ShareInfoBytes] at h
    omega
  refine ⟨?_, ?_, ?_, rfl, rfl, rfl, rfl, ?_⟩
  · simp [FlipSequenceStart, indexOfInfoBytes, List.getD_eq_getElem?_getD,
      List.getElem?_set_self hlt]
  · intro j hj
    simp [FlipSequenceStart, indexOfInfoBytes, List.getD_eq_getElem?_getD,
      List.getElem?_set_ne (Ne.symm hj)]
  · simp [FlipSequenceStart]
  · simp only [FlipSequenceStart, indexOfInfoBytes]
    have h1 : (b.rawShareData.set NamespaceSize
          ((b.rawShareData.getD NamespaceSize 0) ^^^ 1)).getD NamespaceSize 0
        = (b.rawShareData.getD NamespaceSize 0) ^^^ 1 := by
      simp [List.getD_eq_getElem?_getD, List.getElem?_set_self hlt]
    rw [h1, List.set_set]
    have h2 : ((b.rawShareData.getD NamespaceSize 0) ^^^ 1) ^^^ 1
        = b.rawShareData.getD NamespaceSize 0 := by
      rw [Nat.xor_assoc]
      simp
    rw [h2, set_getD_self _ _ hlt]

/-- Witness for the C7 theorem at a concrete builder with an in-range
info byte. -/
theorem flipSequenceStart_witness :
    NamespaceSize + ShareInfoBytes ≤ bTxHeader.rawShareData.length ∧
    FlipSequenceStart (FlipSequenceStart bTxHeader) = bTxHeader :=
  ⟨by decide,
    (flipSequenceStart_toggles_low_bit_involution bTxHeader
      (by decide)).2.2.2.2.2.2.2⟩

theorem zeroPad_fst (share : List Nat) (width : Nat) :
    (zeroPadIfNecessary share width).1
      = share ++ List.replicate (width - share.length) 0 := by
  rw [zeroPadIfNecessary]
  split
  · have h0 : width - share.length = 0 := by omega
    simp [h0]
  · rfl

theorem zeroPad_snd (share : List Nat) (width : Nat) :
    (zeroPadIfNecessary share width).2 = width - share.length := by
  rw [zeroPadIfNecessary]
  split
  · omega
  · rfl

/-- C8: with the buffer within capacity, `ZeroPadIfNecessary` pads the
buffer with zero bytes to exactly `ShareSize` and returns the number of
padding bytes (0 when already full); in particular, for a sparse
builder that took a whole unit in one append, the count is `ShareSize`
minus the header length minus the data length. -/
theorem zeroPadIfNecessary_pads_to_shareSize (b : Builder)
    (h : b.rawShareData.length ≤ ShareSize) :
    (ZeroPadIfNecessary b).1.rawShareData.length = ShareSize ∧
    (ZeroPadIfNecessary b).2 = ShareSize - b.rawShareData.length ∧
    (ZeroPadIfNecessary b).1.rawShareData
      = b.rawShareData ++ List.replicate (ShareSize - b.rawShareData.length) 0 ∧
    (b.rawShareData.length = ShareSize → (ZeroPadIfNecessary b).2 = 0) ∧
    (∀ (ns : Namespace) (v : Nat) (first : Bool) (data : List Nat) (b0 b1 : Builder),
      ns.bytes.length = NamespaceSize →
      isCompactShare ns = false →
      NewBuilder ns v first = some b0 →
      AddData b0 data = some (b1, []) →
      (ZeroPadIfNecessary b1).2
        = ShareSize - (NamespaceSize + ShareInfoBytes
            + (if first then SequenceLenBytes else 0)) - data.length) := by
  refine ⟨?_, ?_, ?_, ?_, ?_⟩
  · simp only [ZeroPadIfNecessary, zeroPad_fst, List.length_append,
      List.length_replicate]
    omega
  · simp only [ZeroPadIfNecessary, zeroPad_snd]
  · simp only [ZeroPadIfNecessary, zeroPad_fst]
  · intro hfull
    simp only [ZeroPadIfNecessary, zeroPad_snd, hfull]
    omega
  · intro ns v first data b0 b1 hns hsp hnew hadd
    have hb0 : b0.rawShareData.length
        = NamespaceSize + ShareInfoBytes + (if first then SequenceLenBytes else 0) := by
      rw [newBuilder_eq] at hnew
      split at hnew
      · exact absurd hnew (by simp)
      · simp only [Option.some.injEq] at hnew
        rw [← hnew]
        simp [hns, hsp, ShareInfoBytes, SequenceLenBytes]
        split <;> simp
    have hb1 : b1.rawShareData = b0.rawShareData ++ data := by
      simp only [AddData] at hadd
      split at hadd
      · simp only [Option.some.injEq, Prod.mk.injEq] at hadd
        rw [← hadd.1]
      · split at hadd
        · exact absurd hadd (by simp)
        · simp only [Option.some.injEq, Prod.mk.injEq] at hadd
          rename_i hfit hneg
          have hdrop := hadd.2
          have : data.length - ((ShareSize : Int) - b0.rawShareData.length).toNat = 0 := by
            rw [← List.length_drop, hdrop]
            rfl
          omega
    rw [ZeroPadIfNecessary]
    simp only [zeroPad_snd, hb1, List.length_append, hb0]
    omega

/-- The sparse builder `bSparseHeader` after a 100-byte unit was
appended whole. -/
def bC8data : Builder :=
  { «namespace» := nsSparseEx
    shareVersion := 0
    isFirstShare := false
    isCompactShare := false
    rawShareData := (List.replicate 29 1 ++ [0]) ++ List.replicate 100 8 }

set_option maxRecDepth 8000 in
/-- Witness for the C8 theorem: padding the 30-byte header-only buffer,
and the sparse single-unit scenario with a 100-byte unit. -/
theorem zeroPadIfNecessary_witness :
    bSparseHeader.rawShareData.length ≤ ShareSize ∧
    (ZeroPadIfNecessary bSparseHeader).2
        = ShareSize - bSparseHeader.rawShareData.length ∧
    (ZeroPadIfNecessary bC8data).2
        = ShareSize - (NamespaceSize + ShareInfoBytes
            + (if false then SequenceLenBytes else 0))
          - (List.replicate 100 8).length :=
  ⟨by decide,
    (zeroPadIfNecessary_pads_to_shareSize bSparseHeader (by decide)).2.1,
    (zeroPadIfNecessary_pads_to_shareSize bSparseHeader (by decide)).2.2.2.2
      nsSparseEx 0 false (List.replicate 100 8) bSparseHeader bC8data
      (by decide) (by decide) (by decide) (by decide)⟩

/-- C6: `NewBuilder` classifies the share kind as compact exactly for
transaction or pay-for-blob namespaces, fails exactly when the share
version exceeds the encodable range, and otherwise initializes the
buffer as namespace bytes, then the info byte encoding version and
first-share flag, then a zero-filled sequence length placeholder iff
this is the first share, then a zero-filled reserved bytes placeholder
iff the kind is compact. -/
theorem newBuilder_classification_and_layout (ns : Namespace) (shareVersion : Nat)
    (isFirstShare : Bool) :
    (NewBuilder ns shareVersion isFirstShare = none ↔ MaxShareVersion < shareVersion) ∧
    (∀ b, NewBuilder ns shareVersion isFirstShare = some b →
      b.isCompactShare = (ns.isTx || ns.isPayForBlob) ∧
      b.«namespace» = ns ∧
      b.shareVersion = shareVersion ∧
      b.isFirstShare = isFirstShare ∧
      b.rawShareData
        = ns.bytes ++ [2 * shareVersion + (if isFirstShare then 1 else 0)]
          ++ (if isFirstShare then List.replicate SequenceLenBytes 0 else [])
          ++ (if ns.isTx || ns.isPayForBlob then
                List.replicate CompactShareReservedBytes 0 else [])) := by
  rw [newBuilder_eq]
  constructor
  · split <;> simp_all
  · intro b hb
    split at hb
    · exact absurd hb (by simp)
    · simp only [Option.some.injEq] at hb
      rw [← hb]
      simp [isCompactShare]

/-- The builder `NewBuilder nsTxEx 1 true` produces: compact kind,
version 1, first share, with both placeholders. -/
def bC6 : Builder :=
  { «namespace» := nsTxEx
    shareVersion := 1
    isFirstShare := true
    isCompactShare := true
    rawShareData := List.replicate 29 0 ++ [3] ++ List.replicate 4 0
      ++ List.replicate 4 0 }

/-- Witness for the C6 theorem at a concrete transaction namespace,
version 1, first share. -/
theorem newBuilder_classification_witness :
    NewBuilder nsTxEx 1 true = some bC6 ∧
    (bC6.isCompactShare = (nsTxEx.isTx || nsTxEx.isPayForBlob) ∧
     bC6.«namespace» = nsTxEx ∧
     bC6.shareVersion = 1 ∧
     bC6.isFirstShare = true ∧
     bC6.rawShareData
       = nsTxEx.bytes ++ [2 * 1 + (if true then 1 else 0)]
         ++ (if true then List.replicate SequenceLenBytes 0 else [])
         ++ (if nsTxEx.isTx || nsTxEx.isPayForBlob then
               List.replicate CompactShareReservedBytes 0 else [])) :=
  ⟨by decide,
    (newBuilder_classification_and_layout nsTxEx 1 true).2 bC6 (by decide)⟩

theorem maybeWriteReservedBytes_noop_of_nonempty (c : Builder)
    (hc : c.isCompactShare = true)
    (he : isEmptyReservedBytes c = some false) :
    MaybeWriteReservedBytes c = (c, none) := by
  simp [MaybeWriteReservedBytes, hc, he]

/-- C3: on a compact builder whose reserved bytes region lies inside the
buffer and whose buffer is within capacity, `MaybeWriteReservedBytes`
succeeds; it is a no-op when the region is already non-zero, otherwise
it writes the current buffer length big-endian into the region (so the
region then decodes to the buffer length at this first state-changing
invocation); and calling it again on the result changes nothing, so two
calls in a row are equivalent to one. -/
theorem maybeWriteReservedBytes_idempotent (b : Builder)
    (hc : b.isCompactShare = true)
    (hr : indexOfReservedBytes b + CompactShareReservedBytes ≤ b.rawShareData.length)
    (hs : b.rawShareData.length ≤ ShareSize) :
    (MaybeWriteReservedBytes b).2 = none ∧
    (isEmptyReservedBytes b = some false → MaybeWriteReservedBytes b = (b, none)) ∧
    (isEmptyReservedBytes b = some true →
      (MaybeWriteReservedBytes b).1.rawShareData
          = b.rawShareData.take (indexOfReservedBytes b)
            ++ putUint32BE b.rawShareData.length
            ++ b.rawShareData.drop (indexOfReservedBytes b + CompactShareReservedBytes) ∧
      ParseReservedBytes (goSlice (MaybeWriteReservedBytes b).1.rawShareData
          (indexOfReservedBytes b) CompactShareReservedBytes)
          = some b.rawShareData.length) ∧
    MaybeWriteReservedBytes ((MaybeWriteReservedBytes b).1)
        = ((MaybeWriteReservedBytes b).1, none) := by
  have hlen4 : (goSlice b.rawShareData (indexOfReservedBytes b)
      CompactShareReservedBytes).length = CompactShareReservedBytes :=
    goSlice_length _ _ _ hr
  have hparse : ParseReservedBytes (goSlice b.rawShareData (indexOfReservedBytes b)
      CompactShareReservedBytes)
      = some (beUint32 (goSlice b.rawShareData (indexOfReservedBytes b)
          CompactShareReservedBytes)) := by
    rw [ParseReservedBytes, if_pos hlen4]
  have hempty : isEmptyReservedBytes b
      = some (beUint32 (goSlice b.rawShareData (indexOfReservedBytes b)
          CompactShareReservedBytes) == 0) := by
    simp only [isEmptyReservedBytes]
    rw [hparse]
  have hlenpos : b.rawShareData.length ≠ 0 := by
    simp only [CompactShareReservedBytes] at hr
    omega
  cases hv : beUint32 (goSlice b.rawShareData (indexOfReservedBytes b)
      CompactShareReservedBytes) == 0 with
  | false =>
      have hempty' : isEmptyReservedBytes b = some false := by rw [hempty, hv]
      have hMW : MaybeWriteReservedBytes b = (b, none) := by
        simp [MaybeWriteReservedBytes, hc, hempty']
      refine ⟨by rw [hMW], fun _ => hMW, ?_, ?_⟩
      · intro habs
        rw [hempty'] at habs
        exact absurd habs (by simp)
      · rw [hMW]
        exact hMW
  | true =>
      have hempty' : isEmptyReservedBytes b = some true := by rw [hempty, hv]
      have hMW : MaybeWriteReservedBytes b
          = ({ b with rawShareData := writeBytesAt b.rawShareData (indexOfReservedBytes b) (NewReservedBytes b.rawShareData.length) }, none) := by
        simp [MaybeWriteReservedBytes, hc, hempty']
      have hmod : b.rawShareData.length % 4294967296 = b.rawShareData.length :=
        Nat.mod_eq_of_lt (by simp only [ShareSize] at hs; omega)
      have hNRB : NewReservedBytes b.rawShareData.length
          = putUint32BE b.rawShareData.length := by
        rw [NewReservedBytes, hmod]
      have hNRBlen : (NewReservedBytes b.rawShareData.length).length
          = CompactShareReservedBytes := by
        rw [hNRB]
        rfl
      have hrb : indexOfReservedBytes b
          + (NewReservedBytes b.rawShareData.length).length
          ≤ b.rawShareData.length := by
        rw [hNRBlen]
        exact hr
      have hwrite : (MaybeWriteReservedBytes b).1.rawShareData
          = b.rawShareData.take (indexOfReservedBytes b)
            ++ putUint32BE b.rawShareData.length
            ++ b.rawShareData.drop (indexOfReservedBytes b + CompactShareReservedBytes) := by
        rw [hMW]
        rw [writeBytesAt_eq_append _ _ _ hrb, hNRB]
        rw [hNRB] at hrb
        rw [putUint32BE_length] at hrb ⊢
        rfl
      have hslice : goSlice (MaybeWriteReservedBytes b).1.rawShareData
          (indexOfReservedBytes b) CompactShareReservedBytes
          = putUint32BE b.rawShareData.length := by
        rw [hMW]
        have := goSlice_writeBytesAt (NewReservedBytes b.rawShareData.length)
          b.rawShareData (indexOfReservedBytes b) hrb
        rw [hNRBlen] at this
        rw [this, hNRB]
      have hparse' : ParseReservedBytes (goSlice (MaybeWriteReservedBytes b).1.rawShareData
          (indexOfReservedBytes b) CompactShareReservedBytes)
          = some b.rawShareData.length := by
        rw [hslice, ParseReservedBytes, if_pos (by rfl)]
        rw [beUint32_putUint32BE _ (by simp only [ShareSize] at hs; omega)]
      refine ⟨by rw [hMW], ?_, fun _ => ⟨hwrite, hparse'⟩, ?_⟩
      · intro habs
        rw [hempty'] at habs
        exact absurd habs (by simp)
      · have hc2 : (MaybeWriteReservedBytes b).1.isCompactShare = true := by
          rw [hMW]
          exact hc
        have hidx2 : indexOfReservedBytes (MaybeWriteReservedBytes b).1
            = indexOfReservedBytes b := by
          rw [hMW, indexOfReservedBytes, indexOfReservedBytes]
        have hbeq : (b.rawShareData.length == 0) = false := by
          simp [hlenpos]
        have hempty2 : isEmptyReservedBytes (MaybeWriteReservedBytes b).1 = some false := by
          simp only [isEmptyReservedBytes, hidx2]
          rw [hparse']
          simp [hbeq]
        exact maybeWriteReservedBytes_noop_of_nonempty _ hc2 hempty2

/-- The header-initialized compact first-share builder
`NewBuilder nsTxEx 0 true` produces. -/
def bC3 : Builder :=
  { «namespace» := nsTxEx
    shareVersion := 0
    isFirstShare := true
    isCompactShare := true
    rawShareData := List.replicate 29 0 ++ [1] ++ List.replicate 4 0
      ++ List.replicate 4 0 }

/-- Witness for the C3 theorem at a concrete compact first-share
builder with an empty reserved bytes region. -/
theorem maybeWriteReservedBytes_idempotent_witness :
    bC3.isCompactShare = true ∧
    indexOfReservedBytes bC3 + CompactShareReservedBytes ≤ bC3.rawShareData.length ∧
    bC3.rawShareData.length ≤ ShareSize ∧
    MaybeWriteReservedBytes ((MaybeWriteReservedBytes bC3).1)
        = ((MaybeWriteReservedBytes bC3).1, none) :=
  ⟨by decide, by decide, by decide,
    (maybeWriteReservedBytes_idempotent bC3 (by decide) (by decide) (by decide)).2.2.2⟩
